import Mathlib

/-!
# A shallow embedding of the `ringo` ring allocator

This file embeds the ring allocator from `src/lib.rs` (with the
`header.rs`/`buffer.rs` duplicates of the same code) into Lean.

The backing region of 32-bit cells is modelled as a `List Nat` of *bytes*
(little-endian cell encoding, as on the x86/ARM targets the crate runs on),
so that both the 4-byte header loads/stores and the raw byte copies of the
writer can be expressed over the same memory.  Raw pointers become cell
indices (`start = 0`, `end = cells - 1`, matching `start.add(capacity - 1)`).
The unbounded `loop` in `Ringal::advance` becomes a fuel-indexed recursion:
`none` means the fuel ran out (the loop did not terminate within `fuel`
iterations), `some none` is the source's `None`, and `some (some _)` a
successful allocation.
-/

deriving instance DecidableEq for Except

namespace Ringo

/-- `size_of::<u32>()`. -/
def U32SIZE : Nat := 4

/-- `u32::MAX >> 1`. -/
def MAXALLOC : Nat := 2 ^ 31 - 1

/-- `(u32::MAX >> 1) as usize * U32SIZE`. -/
def MAXALLOCBYTES : Nat := MAXALLOC * U32SIZE

/-- `MINALLOC`. -/
def MINALLOC : Nat := 8

/-- `MINALLOC as usize * U32SIZE`. -/
def MINALLOCBYTES : Nat := MINALLOC * U32SIZE

/-- Little-endian byte decomposition of a `u32` value. -/
def leBytes (v : Nat) : List Nat :=
  [v % 256, v / 256 % 256, v / 2 ^ 16 % 256, v / 2 ^ 24 % 256]

/-- Read the 32-bit cell `i` of a byte memory (little-endian). -/
def loadCell (m : List Nat) (i : Nat) : Nat :=
  m.getD (4 * i) 0 + 256 * m.getD (4 * i + 1) 0 +
    2 ^ 16 * m.getD (4 * i + 2) 0 + 2 ^ 24 * m.getD (4 * i + 3) 0

/-- Write the 32-bit cell `i` of a byte memory (little-endian). -/
def storeCell (m : List Nat) (i v : Nat) : List Nat :=
  (((m.set (4 * i) (v % 256)).set (4 * i + 1) (v / 256 % 256)).set
      (4 * i + 2) (v / 2 ^ 16 % 256)).set (4 * i + 3) (v / 2 ^ 24 % 256)

/-- Copy a byte string into memory starting at byte offset `o`
(`copy_from_nonoverlapping`). -/
def writeBytes (m : List Nat) (o : Nat) : List Nat → List Nat
  | [] => m
  | b :: rest => writeBytes (m.set o b) (o + 1) rest

/-- Read `n` bytes starting at byte offset `o`. -/
def readBytes (m : List Nat) (o : Nat) : Nat → List Nat
  | 0 => []
  | n + 1 => m.getD o 0 :: readBytes m (o + 1) n

/-- `Header::set`: `fetch_or(1)` on the header word — set bit 0.
For values below `2^32` this equals the bitwise or with 1. -/
def Header.set (m : List Nat) (i : Nat) : List Nat :=
  storeCell m i (2 * (loadCell m i / 2) + 1)

/-- `Header::unset`: `fetch_and(u32::MAX << 1)` — clear bit 0.
For values below `2^32` this equals the bitwise and with `0xFFFFFFFE`. -/
def Header.unset (m : List Nat) (i : Nat) : List Nat :=
  storeCell m i (2 * (loadCell m i / 2))

/-- `Header::store(size)`: store `size << 1` (as `u32`). -/
def Header.store (m : List Nat) (i size : Nat) : List Nat :=
  storeCell m i (2 * size % 2 ^ 32)

/-- `Header::capacity()`: load, shift right by 1. -/
def Header.capacity (m : List Nat) (i : Nat) : Nat :=
  loadCell m i / 2

/-- `Header::available()`: load, test bit 0 == 0. -/
def Header.available (m : List Nat) (i : Nat) : Bool :=
  loadCell m i % 2 == 0

/-- The ring allocator: `start` is cell index 0, `end` is cell index
`cells - 1` (`start.add(capacity - 1)`), `head` a cell index. -/
structure Ringal where
  mem : List Nat
  cells : Nat
  head : Nat
  deriving Repr, DecidableEq

/-- Helper for `next_power_of_two`: doubling with structural fuel
(64 doublings cover every `usize` input). -/
def nextPow2Go (n : Nat) : Nat → Nat → Nat
  | 0, acc => acc
  | fuel + 1, acc => if n ≤ acc then acc else nextPow2Go n fuel (2 * acc)

/-- Rust's `usize::next_power_of_two`: least power of two `≥ n`. -/
def nextPow2 (n : Nat) : Nat := nextPow2Go n 64 1

/-- The initialization loop of `Ringal::new`:
`buffer.push(MAXALLOC.min(cap - i - 1) << 1)` for `i` in `0..cap`,
flattened to little-endian bytes.  `i` is the index of the next cell,
the second argument counts the remaining cells. -/
def initCells (cap : Nat) (i : Nat) : Nat → List Nat
  | 0 => []
  | n + 1 => leBytes (2 * Nat.min MAXALLOC (cap - i - 1)) ++ initCells cap (i + 1) n

/-- `Ringal::new(capacity)` (the `assert!(capacity > U32SIZE + MINALLOCBYTES)`
precondition appears as a hypothesis of the theorems about it). -/
def Ringal.new (capacity : Nat) : Ringal :=
  let cells := nextPow2 capacity / U32SIZE
  { mem := initCells cells 0 cells, cells := cells, head := 0 }

/-- The `loop` of `Ringal::advance`, fuel-indexed.  Returns
`none` when the fuel is exhausted (the loop ran longer), `some none` for the
source's `None` exits (busy segment, or full circle `self.head == current`),
and `some (some (accumulated, wrapped))` for the `break`. -/
def advanceLoop (mem : List Nat) (endIdx head req : Nat) :
    Nat → Nat → Nat → Bool → Option (Option (Nat × Bool))
  | 0, _, _, _ => none
  | fuel + 1, current, acc, wrapped =>
    if Header.available mem current then
      let size := Header.capacity mem current
      let acc := acc + size
      if req ≤ acc then some (some (acc, wrapped))
      else
        -- `let next = current.add(size as usize + U32SIZE)` — note the
        -- source adds U32SIZE (= 4) cells here, not 1
        let next := current + size + U32SIZE
        let acc := acc + 1
        if endIdx ≤ next then
          if head == 0 then some none
          else advanceLoop mem endIdx head req fuel 0 0 true
        else
          if head == next then some none
          else advanceLoop mem endIdx head req fuel next acc wrapped
    else some none

/-- The commit phase of `Ringal::advance` (everything after the loop):
choose the capacity (absorbing slack `≤ MINALLOC`), store the header,
advance `head`, and write the trailing free header when slack is large. -/
def advanceCommit (r : Ringal) (req acc : Nat) (wrapped : Bool) : Nat × Ringal :=
  let head := if wrapped then 0 else r.head
  let cap := if acc - req ≤ MINALLOC then acc else req
  let mem := Header.store r.mem head cap
  let next := head + cap + 1
  if r.cells - 1 ≤ next then
    (head, { mem := mem, cells := r.cells, head := 0 })
  else
    if MINALLOC < acc - req then
      let distance := r.cells - 1 - next
      let mem := Header.store mem next (Nat.min (acc - req) distance)
      let mem := Header.unset mem next
      (head, { mem := mem, cells := r.cells, head := next })
    else
      (head, { mem := mem, cells := r.cells, head := next })

/-- `Ringal::advance`: run the scan loop from `head`, then commit.
Result: allocated header cell index and updated ring. -/
def Ringal.advance (r : Ringal) (req fuel : Nat) : Option (Option (Nat × Ringal)) :=
  match advanceLoop r.mem (r.cells - 1) r.head req fuel r.head 0 false with
  | none => none
  | some none => some none
  | some (some (acc, wrapped)) => some (some (advanceCommit r req acc wrapped))

/-- `Ringal::alloc(min)`: round bytes up to cells, range-check against
`MINALLOC..MAXALLOC`, then scan. -/
def Ringal.alloc (r : Ringal) (min fuel : Nat) : Option (Option (Nat × Ringal)) :=
  let min := min / U32SIZE + (if min % U32SIZE ≠ 0 then 1 else 0)
  if MINALLOC ≤ min ∧ min < MAXALLOC then r.advance min fuel else some none

/-- A `BufferMut`: header cell index and the slice length *as the source
computes it* (`from_raw_parts_mut(inner, capacity)` — the segment capacity
count, taken as a byte length). -/
structure BufferMut where
  pos : Nat
  len : Nat
  deriving Repr, DecidableEq

/-- `Ringal::fixed(min)`: allocate, read the capacity, set the busy bit. -/
def Ringal.fixed (r : Ringal) (min fuel : Nat) : Option (Option (BufferMut × Ringal)) :=
  match r.alloc min fuel with
  | none => none
  | some none => some none
  | some (some (i, r')) =>
    let capacity := Header.capacity r'.mem i
    let b : BufferMut := { pos := i, len := capacity }
    some (some (b, { r' with mem := Header.set r'.mem i }))

/-- A `BufferWriter`: header cell index, bytes written so far, and the
cached byte capacity. -/
structure BufferWriter where
  headerPos : Nat
  filled : Nat      -- the source's `initialized` field: bytes written
  capacity : Nat    -- bytes
  deriving Repr, DecidableEq

/-- `Ringal::writer(min)`. -/
def Ringal.writer (r : Ringal) (min fuel : Nat) :
    Option (Option (BufferWriter × Ringal)) :=
  match r.alloc min fuel with
  | none => none
  | some none => some none
  | some (some (i, r')) =>
    let w : BufferWriter :=
      { headerPos := i, filled := 0, capacity := Header.capacity r'.mem i * U32SIZE }
    some (some (w, r'))

/-- `Ringal::extend(header, extra)`: allocate `extra - U32SIZE` more bytes
and fold the fresh segment's capacity (plus its header cell) into the
writer's header.  `some (.error ())` is the "ring buffer is full" error;
the allocated segment's cell index is returned for inspection. -/
def Ringal.extend (r : Ringal) (headerPos extra fuel : Nat) :
    Option (Except Unit (Nat × Ringal)) :=
  match r.alloc (extra - U32SIZE) fuel with
  | none => none
  | some none => some (.error ())
  | some (some (j, r')) =>
    let capacity := Header.capacity r'.mem j + 1 + Header.capacity r'.mem headerPos
    some (.ok (j, { r' with mem := Header.store r'.mem headerPos capacity }))

/-- `<BufferWriter as Write>::write(buf)`.  The source's
`if self.initialized == MAXALLOCBYTES { io::Error::other(..); }` constructs
the error value and immediately discards it (no `return`), so it has no
effect and is not modelled by a branch. -/
def BufferWriter.write (w : BufferWriter) (r : Ringal) (buf : List Nat)
    (fuel : Nat) : Option (Except Unit (Nat × BufferWriter × Ringal)) :=
  let len := Nat.min buf.length (MAXALLOCBYTES - w.filled)
  let required := w.filled + len
  if w.capacity < required then
    match r.extend w.headerPos (Nat.max (required - w.capacity) MINALLOCBYTES) fuel with
    | none => none
    | some (.error e) => some (.error e)
    | some (.ok (_, r')) =>
      let capacity := Header.capacity r'.mem w.headerPos * U32SIZE
      let mem := writeBytes r'.mem (4 * (w.headerPos + 1) + w.filled) (buf.take len)
      let w' : BufferWriter := { w with filled := w.filled + len, capacity := capacity }
      some (.ok (len, w', { r' with mem := mem }))
  else
    let mem := writeBytes r.mem (4 * (w.headerPos + 1) + w.filled) (buf.take len)
    some (.ok (len, { w with filled := w.filled + len }, { r with mem := mem }))

/-- `BufferWriter::finish`: set the busy bit, slice length = bytes written. -/
def BufferWriter.finish (w : BufferWriter) (r : Ringal) : BufferMut × Ringal :=
  ({ pos := w.headerPos, len := w.filled },
    { r with mem := Header.set r.mem w.headerPos })

/-- A shared `Buffer` after `freeze`: same view, refcount starts at 1. -/
structure Buffer where
  pos : Nat
  len : Nat
  deriving Repr, DecidableEq

/-- `BufferMut::freeze`: transfer the view; no memory effect (the
destructor of the mutable buffer is suppressed with `mem::forget`). -/
def BufferMut.freeze (b : BufferMut) : Buffer :=
  { pos := b.pos, len := b.len }

/-- Reading a buffer back (`Deref` to the byte slice). -/
def Buffer.read (b : Buffer) (r : Ringal) : List Nat :=
  readBytes r.mem (4 * (b.pos + 1)) b.len

/-- `Drop for BufferMut`: clear the busy bit. -/
def BufferMut.drop (b : BufferMut) (r : Ringal) : Ringal :=
  { r with mem := Header.unset r.mem b.pos }

/-- Writing through a `BufferMut` (`copy_from_slice` on the slice view). -/
def BufferMut.fill (b : BufferMut) (r : Ringal) (bytes : List Nat) : Ringal :=
  { r with mem := writeBytes r.mem (4 * (b.pos + 1)) bytes }

/-- The full writer pipeline of the round-trip property: allocate a writer
of `minBytes`, push the byte string `s` through one `write` call, `finish`,
`freeze`, and read the shared buffer back.  `none` = fuel exhausted,
`some none` = an allocation failure or write error along the way. -/
def writeReadTrip (r : Ringal) (minBytes : Nat) (s : List Nat) :
    Option (Option (List Nat)) :=
  match Ringal.writer r minBytes 300 with
  | none => none
  | some none => some none
  | some (some (w, r1)) =>
    match BufferWriter.write w r1 s 300 with
    | none => none
    | some (.error _) => some none
    | some (.ok (_, w2, r2)) =>
      let fin := BufferWriter.finish w2 r2
      some (some (Buffer.read (BufferMut.freeze fin.1) fin.2))

/-- Walk the segment chain from cell `pos` and sum `1 + capacity` per
segment, stopping when the walk leaves the region (fuel-indexed). -/
def chainSum (m : List Nat) (cells : Nat) : Nat → Nat → Nat
  | _, 0 => 0
  | pos, fuel + 1 =>
    if cells ≤ pos then 0
    else 1 + Header.capacity m pos + chainSum m cells (pos + Header.capacity m pos + 1) fuel

/-- Extract the payload of a `some (some _)` model result. -/
def getSome {α : Type} (d : α) : Option (Option α) → α
  | some (some x) => x
  | _ => d

/-! ## Basic memory lemmas -/

theorem getD_set_ne (l : List Nat) (i j v : Nat) (h : i ≠ j) :
    (l.set i v).getD j 0 = l.getD j 0 := by
  simp [List.getD, List.getElem?_set_ne h]

theorem getD_set_self (l : List Nat) (i v : Nat) (h : i < l.length) :
    (l.set i v).getD i 0 = v := by
  simp [List.getD, List.getElem?_set_self, h]

theorem storeCell_length (m : List Nat) (i v : Nat) :
    (storeCell m i v).length = m.length := by
  simp [storeCell]

theorem writeBytes_length (s : List Nat) (m : List Nat) (o : Nat) :
    (writeBytes m o s).length = m.length := by
  induction s generalizing m o with
  | nil => rfl
  | cons b rest ih => simp [writeBytes, ih]

theorem getD_writeBytes_lt (s : List Nat) (m : List Nat) (o j : Nat) (h : j < o) :
    (writeBytes m o s).getD j 0 = m.getD j 0 := by
  induction s generalizing m o with
  | nil => rfl
  | cons b rest ih =>
    rw [writeBytes, ih _ _ (by omega), getD_set_ne _ _ _ _ (by omega)]

theorem readBytes_set_lt (n : Nat) (m : List Nat) (o j v : Nat) (h : j < o) :
    readBytes (m.set j v) o n = readBytes m o n := by
  induction n generalizing o with
  | zero => rfl
  | succ n ih =>
    rw [readBytes, readBytes, ih _ (by omega), getD_set_ne _ _ _ _ (by omega)]

theorem readBytes_storeCell_lt (n : Nat) (m : List Nat) (i o v : Nat)
    (h : 4 * i + 4 ≤ o) : readBytes (storeCell m i v) o n = readBytes m o n := by
  unfold storeCell
  rw [readBytes_set_lt _ _ _ _ _ (by omega), readBytes_set_lt _ _ _ _ _ (by omega),
    readBytes_set_lt _ _ _ _ _ (by omega), readBytes_set_lt _ _ _ _ _ (by omega)]

theorem readBytes_writeBytes (s : List Nat) (m : List Nat) (o : Nat)
    (h : o + s.length ≤ m.length) :
    readBytes (writeBytes m o s) o s.length = s := by
  induction s generalizing m o with
  | nil => rfl
  | cons b rest ih =>
    rw [List.length_cons, writeBytes, readBytes]
    have hlen : (writeBytes (m.set o b) (o + 1) rest).length = m.length := by
      rw [writeBytes_length, List.length_set]
    have hm : o < m.length := by simp at h; omega
    have h1 : (writeBytes (m.set o b) (o + 1) rest).getD o 0 = b := by
      rw [getD_writeBytes_lt _ _ _ _ (by omega), getD_set_self _ _ _ hm]
    rw [h1, ih _ _ (by simp only [List.length_set]; simp only [List.length_cons] at h; omega)]

theorem loadCell_storeCell_self (m : List Nat) (i v : Nat)
    (h : 4 * i + 3 < m.length) :
    loadCell (storeCell m i v) i = v % 2 ^ 32 := by
  unfold loadCell storeCell
  rw [getD_set_ne _ _ _ _ (by omega), getD_set_ne _ _ _ _ (by omega),
    getD_set_ne _ _ _ _ (by omega), getD_set_self _ _ _ (by omega)]
  rw [getD_set_ne _ _ _ _ (by omega), getD_set_ne _ _ _ _ (by omega),
    getD_set_self _ _ _ (by simp; omega)]
  rw [getD_set_ne _ _ _ _ (by omega), getD_set_self _ _ _ (by simp; omega)]
  rw [getD_set_self _ _ _ (by simp; omega)]
  omega

theorem loadCell_storeCell_ne (m : List Nat) (i j v : Nat) (h : j ≠ i) :
    loadCell (storeCell m i v) j = loadCell m j := by
  unfold loadCell storeCell
  rw [getD_set_ne _ _ _ _ (by omega), getD_set_ne _ _ _ _ (by omega),
    getD_set_ne _ _ _ _ (by omega), getD_set_ne _ _ _ _ (by omega),
    getD_set_ne _ _ _ _ (by omega), getD_set_ne _ _ _ _ (by omega),
    getD_set_ne _ _ _ _ (by omega), getD_set_ne _ _ _ _ (by omega),
    getD_set_ne _ _ _ _ (by omega), getD_set_ne _ _ _ _ (by omega),
    getD_set_ne _ _ _ _ (by omega), getD_set_ne _ _ _ _ (by omega),
    getD_set_ne _ _ _ _ (by omega), getD_set_ne _ _ _ _ (by omega),
    getD_set_ne _ _ _ _ (by omega), getD_set_ne _ _ _ _ (by omega)]

/-! ## The initial memory pattern of `Ringal::new` -/

theorem initCells_length (cap : Nat) : ∀ n i, (initCells cap i n).length = 4 * n := by
  intro n
  induction n with
  | zero => intro i; rfl
  | succ n ih =>
    intro i
    simp [initCells, leBytes, ih]
    omega

theorem getD_append_left (l l' : List Nat) (n : Nat) (h : n < l.length) :
    (l ++ l').getD n 0 = l.getD n 0 := by
  simp [List.getD, List.getElem?_append_left h]

theorem getD_append_right (l l' : List Nat) (n : Nat) :
    (l ++ l').getD (l.length + n) 0 = l'.getD n 0 := by
  simp [List.getD, List.getElem?_append_right (Nat.le_add_right ..)]

theorem getD_append_four (l l' : List Nat) (n : Nat) (h : l.length = 4) :
    (l ++ l').getD (4 + n) 0 = l'.getD n 0 := by
  rw [← h]
  exact getD_append_right l l' n

theorem loadCell_leBytes_append (v : Nat) (rest : List Nat) (hv : v < 2 ^ 32) :
    loadCell (leBytes v ++ rest) 0 = v := by
  unfold loadCell
  rw [show 4 * 0 = 0 from rfl]
  rw [getD_append_left _ _ _ (by simp [leBytes]), getD_append_left _ _ _ (by simp [leBytes]),
    getD_append_left _ _ _ (by simp [leBytes]), getD_append_left _ _ _ (by simp [leBytes])]
  simp only [leBytes, List.getD_cons_zero, List.getD_cons_succ]
  omega

theorem loadCell_cons_chunk (v : Nat) (rest : List Nat) (j : Nat)
    (h4 : (leBytes v).length = 4) :
    loadCell (leBytes v ++ rest) (j + 1) = loadCell rest j := by
  unfold loadCell
  rw [show 4 * (j + 1) = 4 + 4 * j from by omega,
    show 4 + 4 * j + 1 = 4 + (4 * j + 1) from by omega,
    show 4 + 4 * j + 2 = 4 + (4 * j + 2) from by omega,
    show 4 + 4 * j + 3 = 4 + (4 * j + 3) from by omega]
  rw [getD_append_four _ _ _ h4, getD_append_four _ _ _ h4,
    getD_append_four _ _ _ h4, getD_append_four _ _ _ h4]

theorem loadCell_initCells (cap : Nat) :
    ∀ n i j, j < n →
      loadCell (initCells cap i n) j = 2 * Nat.min MAXALLOC (cap - (i + j) - 1) := by
  intro n
  induction n with
  | zero => intro i j h; omega
  | succ n ih =>
    intro i j hj
    match j with
    | 0 =>
      have hv : 2 * Nat.min MAXALLOC (cap - i - 1) < 2 ^ 32 := by
        have h2 : MAXALLOC = 2 ^ 31 - 1 := rfl
        have h1 : Nat.min MAXALLOC (cap - i - 1) ≤ MAXALLOC := Nat.min_le_left _ _
        omega
      unfold initCells
      rw [loadCell_leBytes_append _ _ hv]
      rw [show i + 0 = i from rfl]
    | j + 1 =>
      unfold initCells
      rw [loadCell_cons_chunk _ _ _ rfl, ih (i + 1) j (by omega)]
      rw [show i + 1 + j = i + (j + 1) from by omega]

/-! ## The fresh 1024-byte ring and the writer round trip -/

/-- The ring of the round-trip scenarios: `Ringal::new(1024)` (256 cells). -/
def freshRing : Ringal := Ringal.new 1024

theorem freshRing_cells : freshRing.cells = 256 := by decide

theorem freshRing_head : freshRing.head = 0 := by decide

theorem freshRing_len : freshRing.mem.length = 1024 := by
  have h : freshRing.mem = initCells 256 0 256 := rfl
  rw [h, initCells_length]

theorem freshRing_loadCell0 : loadCell freshRing.mem 0 = 510 := by
  have h : freshRing.mem = initCells 256 0 256 := rfl
  rw [h, loadCell_initCells 256 256 0 0 (by omega)]
  rfl

/-- On the fresh ring the scan loop breaks in its first iteration: the
single free segment at cell 0 has capacity 255, enough for any in-range
request. -/
theorem advanceLoop_fresh (m fuel : Nat) (hm : m ≤ 255) :
    advanceLoop freshRing.mem 255 0 m (fuel + 1) 0 0 false = some (some (255, false)) := by
  have h0 : Header.available freshRing.mem 0 = true := by
    rw [Header.available, freshRing_loadCell0]; rfl
  have h1 : Header.capacity freshRing.mem 0 = 255 := by
    rw [Header.capacity, freshRing_loadCell0]
  rw [advanceLoop, h0]
  simp only [if_true, h1]
  rw [if_pos (by omega : m ≤ 0 + 255)]

/-- The commit of a fresh-ring allocation: the segment lands at cell 0 and
its header records either the request `m` or, when the slack is small, the
whole region. -/
theorem advanceCommit_fresh (m : Nat) (h8 : 8 ≤ m) (h255 : m ≤ 255) :
    ∃ r' : Ringal,
      advanceCommit freshRing m 255 false = (0, r') ∧
      r'.mem.length = 1024 ∧
      m ≤ Header.capacity r'.mem 0 ∧ Header.capacity r'.mem 0 ≤ 255 := by
  have hMI : MINALLOC = 8 := rfl
  have hw : (if (false : Bool) then (0 : Nat) else freshRing.head) = 0 := by
    rw [freshRing_head, ite_self]
  simp only [advanceCommit]
  rw [hw, freshRing_cells]
  by_cases hA : 255 - m ≤ 8
  · have e1 : (if 255 - m ≤ MINALLOC then 255 else m) = 255 := by
      rw [hMI]; exact if_pos hA
    rw [e1, if_pos (show (256 : Nat) - 1 ≤ 0 + 255 + 1 from by omega)]
    refine ⟨_, rfl, ?_, ?_, ?_⟩
    · unfold Header.store
      rw [storeCell_length, freshRing_len]
    · unfold Header.capacity Header.store
      rw [loadCell_storeCell_self _ _ _ (by rw [freshRing_len]; omega)]
      omega
    · unfold Header.capacity Header.store
      rw [loadCell_storeCell_self _ _ _ (by rw [freshRing_len]; omega)]
      omega
  · have e1 : (if 255 - m ≤ MINALLOC then 255 else m) = m := by
      rw [hMI]; exact if_neg hA
    rw [e1, if_neg (show ¬((256 : Nat) - 1 ≤ 0 + m + 1) from by omega),
      if_pos (show MINALLOC < 255 - m from by rw [hMI]; omega)]
    refine ⟨_, rfl, ?_, ?_, ?_⟩
    · unfold Header.unset Header.store
      rw [storeCell_length, storeCell_length, storeCell_length, freshRing_len]
    · unfold Header.capacity Header.unset Header.store
      rw [loadCell_storeCell_ne _ _ _ _ (by omega),
        loadCell_storeCell_ne _ _ _ _ (by omega),
        loadCell_storeCell_self _ _ _ (by rw [freshRing_len]; omega)]
      omega
    · unfold Header.capacity Header.unset Header.store
      rw [loadCell_storeCell_ne _ _ _ _ (by omega),
        loadCell_storeCell_ne _ _ _ _ (by omega),
        loadCell_storeCell_self _ _ _ (by rw [freshRing_len]; omega)]
      omega

/-- A fresh-ring allocation of `32 ≤ M ≤ 1020` bytes succeeds, allocates
the segment at cell 0, and records a capacity of at least `M` bytes. -/
theorem alloc_fresh (M : Nat) (h32 : 32 ≤ M) (hM : M ≤ 1020) :
    ∃ r' : Ringal,
      Ringal.alloc freshRing M 300 = some (some (0, r')) ∧
      r'.mem.length = 1024 ∧
      M ≤ Header.capacity r'.mem 0 * 4 ∧ Header.capacity r'.mem 0 ≤ 255 := by
  have hU : U32SIZE = 4 := rfl
  have hMA : MAXALLOC = 2 ^ 31 - 1 := rfl
  have hMI : MINALLOC = 8 := rfl
  set m := M / U32SIZE + (if M % U32SIZE ≠ 0 then 1 else 0) with hm_def
  have hm8 : 8 ≤ m := by rw [hm_def, hU]; split <;> omega
  have hm255 : m ≤ 255 := by
    rw [hm_def, hU]
    split
    · next h => omega
    · next h => simp at h; omega
  have hm4 : M ≤ m * 4 := by
    rw [hm_def, hU]
    split
    · next h => omega
    · next h => simp at h; omega
  obtain ⟨r', hcommit, hlen, hcapl, hcapu⟩ := advanceCommit_fresh m hm8 hm255
  have hadv : Ringal.advance freshRing m 300 = some (some (0, r')) := by
    unfold Ringal.advance
    rw [freshRing_cells, freshRing_head,
      show (300 : Nat) = 299 + 1 from rfl,
      show (256 : Nat) - 1 = 255 from rfl,
      advanceLoop_fresh m 299 hm255]
    rw [show (match some (some ((255 : Nat), false)) with
      | none => (none : Option (Option (Nat × Ringal)))
      | some none => some none
      | some (some (acc, wrapped)) =>
        some (some (advanceCommit freshRing m acc wrapped))) =
        some (some (advanceCommit freshRing m 255 false)) from rfl, hcommit]
  refine ⟨r', ?_, hlen, by omega, hcapu⟩
  unfold Ringal.alloc
  rw [if_pos ⟨by rw [hMI]; exact hm8, by rw [hMA]; omega⟩]
  exact hadv

/-- The amended round trip: a writer whose initial request covers the whole
string (so no extension is needed) reproduces the string exactly. -/
theorem writeReadTrip_fresh (s : List Nat) (hs : s.length ≤ 1020) :
    writeReadTrip freshRing (Nat.max 32 s.length) s = some (some s) := by
  obtain ⟨r', halloc, hlen, hcap, hcapu⟩ :=
    alloc_fresh (Nat.max 32 s.length) (Nat.le_max_left ..)
      (max_le (by omega) hs)
  have hMB : MAXALLOCBYTES = 8589934588 := rfl
  have hU : U32SIZE = 4 := rfl
  have hsM : s.length ≤ Nat.max 32 s.length := Nat.le_max_right ..
  unfold writeReadTrip
  have hwriter : Ringal.writer freshRing (Nat.max 32 s.length) 300 =
      some (some (⟨0, 0, Header.capacity r'.mem 0 * U32SIZE⟩, r')) := by
    unfold Ringal.writer
    rw [halloc]
  rw [hwriter]
  have hlenmin : Nat.min s.length (MAXALLOCBYTES - (0 : Nat)) = s.length := by
    rw [hMB]; exact Nat.min_eq_left (by omega)
  have hwrite : BufferWriter.write ⟨0, 0, Header.capacity r'.mem 0 * U32SIZE⟩
      r' s 300 = some (.ok (s.length,
        ⟨0, 0 + s.length, Header.capacity r'.mem 0 * U32SIZE⟩,
        ⟨writeBytes r'.mem (4 * (0 + 1) + 0) (s.take s.length), r'.cells, r'.head⟩)) := by
    simp only [BufferWriter.write]
    rw [hlenmin, if_neg (show ¬(Header.capacity r'.mem 0 * U32SIZE < 0 + s.length)
      from by rw [hU]; omega)]
  simp only [hwrite]
  unfold BufferWriter.finish BufferMut.freeze Buffer.read
  simp only [Header.set]
  rw [List.take_length]
  rw [readBytes_storeCell_lt _ _ _ _ _ (by omega)]
  rw [show 4 * ((0 : Nat) + 1) + 0 = 4 from rfl, show 4 * ((0 : Nat) + 1) = 4 from rfl,
    show 0 + s.length = s.length from by omega]
  rw [readBytes_writeBytes s r'.mem 4 (by omega)]

/-! ## Trace states for the concrete scenarios -/

/-- Default used when destructuring model results in the concrete traces. -/
def dflt : BufferMut × Ringal := ({ pos := 0, len := 0 }, Ringal.new 128)

/-- Default for `Nat × Ringal` results. -/
def dfltNR : Nat × Ringal := (0, Ringal.new 128)

/-- C1 trace, step 1: `Ringal::new(128)` then `fixed(32)` — segment at cell
0 (capacity 8), head at cell 9. -/
def c1b1 : BufferMut × Ringal := getSome dflt (Ringal.fixed (Ringal.new 128) 32 300)

/-- C1 trace, step 2: second `fixed(32)` — busy segment at cell 9. -/
def c1r2 : Ringal := (getSome dflt (Ringal.fixed c1b1.2 32 300)).2

/-- C1 trace, step 3: `fixed(52)` absorbs the tail — head wraps to cell 0. -/
def c1r3 : Ringal := (getSome dflt (Ringal.fixed c1r2 52 300)).2

/-- C1 trace, step 4: drop the first buffer — cell 0 is a free capacity-8
segment at head, followed by the busy segment at cell 9. -/
def c1ring : Ringal := BufferMut.drop c1b1.1 c1r3

/-- C2 trace, step 1: `Ringal::new(128)` then `fixed(80)` — busy segment of
20 cells at cell 0, free remainder of 10 cells at cell 21. -/
def c2b1 : BufferMut × Ringal := getSome dflt (Ringal.fixed (Ringal.new 128) 80 300)

/-- C2 trace, step 2: `fixed(32)` absorbs the remainder — busy segment of
10 cells at cell 21, head wraps to 0. -/
def c2b2 : BufferMut × Ringal := getSome dflt (Ringal.fixed c2b1.2 32 300)

/-- C2 trace, step 3: write ten `0xFF` bytes through the second buffer
(its slice length is 10 because of the cells-as-bytes length bug). -/
def c2r3 : Ringal := BufferMut.fill c2b2.1 c2b2.2 (List.replicate 10 255)

/-- C2 trace, step 4: drop the first buffer — cell 0 free again. -/
def c2r4 : Ringal := BufferMut.drop c2b1.1 c2r3

/-- C2 trace, step 5: `fixed(32)` splits the 20-cell segment at cell 0 and
writes a trailing free header at cell 9. -/
def c2ring : Ringal := (getSome dflt (Ringal.fixed c2r4 32 300)).2

/-- C4 state: a fresh 128-byte ring with a `writer(32)` on it — writer
segment at cell 0 (capacity 8 cells, free until `finish`), head at cell 9. -/
def c4w : BufferWriter × Ringal :=
  getSome (⟨0, 0, 0⟩, Ringal.new 128) (Ringal.writer (Ringal.new 128) 32 300)

/-- C5 state: a writer whose `initialized` byte count has reached
`MAXALLOCBYTES` (the logical-buffer maximum). -/
def c5w : BufferWriter := ⟨0, MAXALLOCBYTES, MAXALLOCBYTES⟩

/-- C7 state: a 32-cell ring, head at cell 5; cell 5 holds a free header of
capacity 22 (so the scan steps `5 + 22 + 4 ≥ 31` and wraps), cell 0 a free
header of capacity 28 (so the scan from `start` steps `0 + 28 + 4 ≥ 31` and
wraps again without ever revisiting head). -/
def c7ring : Ringal :=
  ⟨storeCell (storeCell (List.replicate 128 0) 0 56) 5 44, 32, 5⟩

/-! ## The shared-buffer refcount lifecycle (`Clone`/`Drop for Buffer`)

All clone handles of one shared buffer are interchangeable (they carry the
same refcount pointer and header pointer), so in this sequential embedding
a drop order is just a count of drops: the state tracks the refcount, the
header's busy bit, and how many times `unset` has run. -/

structure BufLife where
  rc : Nat
  busy : Bool
  unsets : Nat
  deriving Repr, DecidableEq

/-- The shared buffer right after `BufferMut::freeze`: refcount cell fresh
at 1, busy bit still set, `unset` never run. -/
def BufLife.frozen : BufLife := ⟨1, true, 0⟩

/-- `Clone for Buffer`: `rc.fetch_add(1)`. -/
def BufLife.clone (b : BufLife) : BufLife := ⟨b.rc + 1, b.busy, b.unsets⟩

/-- `Drop for Buffer`, run sequentially: the compare-exchange loop either
observes count 1 (last holder: clear `busy`, reclaim the refcount) or
decrements and returns. -/
def BufLife.drop (b : BufLife) : BufLife :=
  if b.rc = 1 then ⟨b.rc, false, b.unsets + 1⟩ else ⟨b.rc - 1, b.busy, b.unsets⟩

/-- `n` successive clones. -/
def BufLife.cloneN : Nat → BufLife → BufLife
  | 0, b => b
  | n + 1, b => (BufLife.cloneN n b).clone

/-- `n` successive drops. -/
def BufLife.dropN : Nat → BufLife → BufLife
  | 0, b => b
  | n + 1, b => (BufLife.dropN n b).drop

theorem cloneN_frozen : ∀ n, BufLife.cloneN n BufLife.frozen = ⟨1 + n, true, 0⟩ := by
  intro n
  induction n with
  | zero => rfl
  | succ n ih => rw [BufLife.cloneN, ih]; rfl

theorem dropN_le (n : Nat) : ∀ k, k ≤ n →
    BufLife.dropN k ⟨1 + n, true, 0⟩ = ⟨1 + n - k, true, 0⟩ := by
  intro k
  induction k with
  | zero => intro _; rfl
  | succ k ih =>
    intro hk
    rw [BufLife.dropN, ih (by omega), BufLife.drop]
    rw [if_neg (by omega : ¬(1 + n - k = 1))]
    rw [show 1 + n - k - 1 = 1 + n - (k + 1) from by omega]

/-! ## Non-termination of the scan on `c7ring` -/

/-- Once the scan on `c7ring` has wrapped to `start`, it is in a loop: the
free header at cell 0 (capacity 28) cannot satisfy the 30-cell request, the
step `0 + 28 + 4` reaches the wall again, the accumulator resets and the
cursor returns to `start` — never equal to head (cell 5), for any fuel. -/
theorem c7_loop_cycles : ∀ fuel, advanceLoop c7ring.mem 31 5 30 fuel 0 0 true = none := by
  intro fuel
  induction fuel with
  | zero => rfl
  | succ f ih =>
    have ha : Header.available c7ring.mem 0 = true := by decide
    have hc : Header.capacity c7ring.mem 0 = 28 := by decide
    rw [advanceLoop, ha]
    simp only [if_true, hc]
    rw [if_neg (by omega : ¬(30 ≤ 0 + 28))]
    rw [if_pos (by decide : (31 : Nat) ≤ 0 + 28 + U32SIZE)]
    rw [if_neg (by decide : ¬(((5 : Nat) == 0) = true))]
    exact ih

/-! ## The claims -/

set_option maxRecDepth 100000

/-- C1. The claim states that when a free segment is consumed without
satisfying the request, the scan cursor moves to the next header exactly
`capacity + 1` cells after the current one.  In the source the cursor moves
`capacity + U32SIZE = capacity + 4` cells (`current.add(size as usize +
U32SIZE)`), while the accumulator only grows by `capacity + 1`.  On
`c1ring` the free segment at head (cell 0) has capacity 8, too small for
the 9-cell request, and the next header — `capacity + 1 = 9` cells on — is
busy, so a scan moving by `capacity + 1` would stop with `None`; instead
the code's scan jumps to cell 12, reads stale bytes there as a free header,
succeeds at cell 0, and writes a trailing free header into cell 10, inside
the busy segment that starts at cell 9. -/
theorem C1_cursor_skips_past_next_header :
    Header.available c1ring.mem 0 = true ∧ Header.capacity c1ring.mem 0 = 8 ∧
    c1ring.head = 0 ∧
    Header.available c1ring.mem (0 + 8 + 1) = false ∧
    (Ringal.alloc c1ring 36 300).map (·.map (fun p => (p.1, p.2.head))) =
      some (some (0, 10)) ∧
    Header.capacity (getSome dfltNR (Ringal.alloc c1ring 36 300)).2.mem 10 = 19 := by
  decide

/-- C2. The claim states that after construction and after every allocation
the sum of `1 + capacity` over the segment chain equals the ring's cell
count.  It holds after construction (first conjunct, 32 cells), but the
allocation in the `c2ring` trace writes a trailing free header at cell 9
whose capacity (12) counts one cell too many — `accumulated - capacity`
instead of `accumulated - capacity - 1` — so the chain walk overshoots the
busy header at cell 21 and lands on payload bytes `0xFFFFFFFF` at cell 22,
making the sum `9 + 13 + (1 + 2^31 - 1) = 2147483670 ≠ 32`. -/
theorem C2_segment_sum_invariant_broken :
    chainSum (Ringal.new 128).mem (Ringal.new 128).cells 0 40 = (Ringal.new 128).cells ∧
    c2ring.cells = 32 ∧
    Header.capacity c2ring.mem 9 = 12 ∧
    Header.available c2ring.mem 21 = false ∧
    chainSum c2ring.mem 32 0 40 = 2147483670 ∧
    chainSum c2ring.mem 32 0 40 ≠ 32 := by
  decide

/-- C3. The claim states that `fixed(min_bytes)` returns a buffer whose
byte length is exactly `min_bytes` with the busy bit set.  The busy bit is
set, but the source builds the slice with
`from_raw_parts_mut(inner, capacity)` where `capacity` is the segment
capacity in cells, so `fixed(32)` on a fresh ring returns a buffer of
length 8, not 32 (the crate's own tests `copy_from_slice` a 32-byte message
into it, which requires length 32). -/
theorem C3_fixed_length_is_cell_count :
    (Ringal.fixed (Ringal.new 1024) 32 300).map (·.map (fun p => p.1.len)) =
      some (some 8) ∧
    (Ringal.fixed (Ringal.new 1024) 32 300).map (·.map (fun p => p.1.len)) ≠
      some (some 32) ∧
    Header.available (getSome dflt (Ringal.fixed (Ringal.new 1024) 32 300)).2.mem 0 =
      false := by
  decide

/-- C4. The claim states that `extend` verifies that the freshly allocated
segment is physically contiguous with the writer's segment and fails with
the ring-full error otherwise.  The source performs no such check: on
`c4w` (writer segment at cell 0, capacity 8, so an adjacent segment must
start at cell `0 + 8 + 1 = 9`), `extend(_, 96)` wraps, allocates at cell 0
— the writer's own header — and reports `Ok`, folding the segment into
itself (capacity `28 + 1 + 28 = 57`); the enclosing `write` of 128 bytes
also returns `Ok 128` instead of an error. -/
theorem C4_extend_accepts_non_contiguous :
    c4w.1.headerPos = 0 ∧ Header.capacity c4w.2.mem 0 = 8 ∧
    (Ringal.extend c4w.2 0 96 300).map (Except.map Prod.fst) = some (Except.ok 0) ∧
    (0 : Nat) ≠ 0 + 8 + 1 ∧
    Header.capacity (match Ringal.extend c4w.2 0 96 300 with
      | some (Except.ok p) => p.2.mem
      | _ => []) 0 = 57 ∧
    (BufferWriter.write c4w.1 c4w.2 (List.replicate 128 171) 300).map
      (Except.map (fun p => p.1)) = some (Except.ok 128) := by
  decide

/-- C5. The claim states that once the writer's byte count has reached
`MAX_CAPACITY * cell_size`, the next write attempt returns the MaxExceeded
error.  The source constructs the error value and discards it without
`return`, so the guard has no effect: a write of one byte on a writer with
`initialized = MAXALLOCBYTES` returns `Ok 0` (the count is capped at the
remaining-to-maximum, which is zero), not an error. -/
theorem C5_write_at_max_returns_ok_zero :
    (BufferWriter.write c5w (Ringal.new 128) [171] 300).map
      (Except.map (fun p => p.1)) = some (Except.ok 0) := by
  decide

/-- C6 counterexample. The claim states that `fixed(min_bytes)` with
`0 < min_bytes < MIN_CAPACITY_BYTES` still succeeds on a fresh ring; but
`alloc` range-checks the rounded cell count against `MINALLOC..MAXALLOC`
instead of clamping, so `fixed(4)` returns `None`. -/
theorem C6_counterexample : Ringal.fixed (Ringal.new 1024) 4 300 = some none := by
  decide

/-- C6 (amended). Sub-minimum requests are rejected, not rounded up: for
`0 < min_bytes ≤ 28` (rounded cell count below `MINALLOC`), `fixed` on a
fresh ring returns `None`; for `29 ≤ min_bytes < 32` the cell count rounds
up to exactly `MINALLOC = 8` and `fixed` succeeds with an 8-cell busy
segment at cell 0 (the returned length is the cell count 8, per the C3
unit bug, not `min_bytes`). -/
theorem C6_subminimum_requests_rejected (n : Nat) (h1 : 0 < n) (h2 : n < MINALLOCBYTES) :
    (n ≤ 28 → Ringal.fixed (Ringal.new 1024) n 300 = some none) ∧
    (29 ≤ n → (Ringal.fixed (Ringal.new 1024) n 300).map
        (·.map (fun p => (p.1.pos, Header.capacity p.2.mem p.1.pos,
          Header.available p.2.mem p.1.pos))) = some (some (0, 8, false))) := by
  constructor
  · intro h
    have hsmall : n / U32SIZE + (if n % U32SIZE ≠ 0 then 1 else 0) < MINALLOC := by
      have hU : U32SIZE = 4 := rfl
      have hMI : MINALLOC = 8 := rfl
      rw [hU, hMI]
      split
      · omega
      · next h4 => simp at h4; omega
    simp only [Ringal.fixed, Ringal.alloc]
    rw [if_neg (by intro hcond; omega)]
  · intro h
    have h2' : n < 32 := h2
    interval_cases n <;> decide

/-- C6 witness: the amended claim at `min_bytes = 4` (rejected) and
`min_bytes = 30` (rounds up to an 8-cell segment). -/
theorem C6_witness :
    ((0 : Nat) < 4 ∧ 4 < MINALLOCBYTES ∧
      Ringal.fixed (Ringal.new 1024) 4 300 = some none) ∧
    ((0 : Nat) < 30 ∧ 30 < MINALLOCBYTES ∧
      (Ringal.fixed (Ringal.new 1024) 30 300).map
        (·.map (fun p => (p.1.pos, Header.capacity p.2.mem p.1.pos,
          Header.available p.2.mem p.1.pos))) = some (some (0, 8, false))) :=
  ⟨⟨by decide, by decide,
      (C6_subminimum_requests_rejected 4 (by decide) (by decide)).1 (by decide)⟩,
    ⟨by decide, by decide,
      (C6_subminimum_requests_rejected 30 (by decide) (by decide)).2 (by decide)⟩⟩

/-- C7. The claim states that for every ring state and in-range request the
scan terminates (success, stop at a busy segment, or `None` on revisiting
head).  On `c7ring` with the in-range 120-byte (30-cell) request the scan
wraps from cell 5 to `start`, and the free header at `start` wraps again
without ever passing through head, so the loop cycles: the fueled scan
returns the fuel-exhaustion marker `none` for every fuel, i.e. it never
terminates. -/
theorem C7_scan_does_not_terminate : ∀ fuel, Ringal.alloc c7ring 120 fuel = none := by
  intro fuel
  simp only [Ringal.alloc]
  rw [if_pos (by decide :
    MINALLOC ≤ 120 / U32SIZE + (if 120 % U32SIZE ≠ 0 then 1 else 0) ∧
      120 / U32SIZE + (if 120 % U32SIZE ≠ 0 then 1 else 0) < MAXALLOC)]
  unfold Ringal.advance
  rw [show c7ring.cells - 1 = 31 from rfl, show c7ring.head = 5 from rfl,
    show (120 / U32SIZE + (if 120 % U32SIZE ≠ 0 then 1 else 0) : Nat) = 30 from rfl]
  cases fuel with
  | zero => rfl
  | succ f =>
    have ha : Header.available c7ring.mem 5 = true := by decide
    have hc : Header.capacity c7ring.mem 5 = 22 := by decide
    rw [advanceLoop, ha]
    simp only [if_true, hc]
    rw [if_neg (by omega : ¬(30 ≤ 0 + 22))]
    rw [if_pos (by decide : (31 : Nat) ≤ 5 + 22 + U32SIZE)]
    rw [if_neg (by decide : ¬(((5 : Nat) == 0) = true))]
    rw [c7_loop_cycles f]

/-- C8 counterexample. The claim quantifies over writers that may grow by
extension; but writing a 33-byte string through a `writer(32)` on a fresh
1024-byte ring fails: the shortfall is 1 byte, `extend` is called with
`extra = max(1, 32) = 32` and allocates `extra - U32SIZE = 28` bytes = 7
cells, below the `MINALLOC` floor, so the write errors and no buffer with
the string's contents is produced. -/
theorem C8_counterexample :
    writeReadTrip (Ringal.new 1024) 32 (List.replicate 33 7) = some none := by
  decide

/-- C8 (amended). The round trip holds when the writer's initial request
already covers the string (no extension needed): for every byte string `s`
with `|s| ≤ 1020` (the 1024-byte ring's capacity minus the 4-byte header),
allocating a writer for `max(32, |s|)` bytes, writing `s` in one call,
`finish`, `freeze`, and reading back yields exactly `s`. -/
theorem C8_roundtrip_without_extension (s : List Nat) (hs : s.length ≤ 1020) :
    writeReadTrip (Ringal.new 1024) (Nat.max 32 s.length) s = some (some s) :=
  writeReadTrip_fresh s hs

/-- C8 witness: the amended round trip at `s = [1, 2, 3]`. -/
theorem C8_witness :
    ([1, 2, 3] : List Nat).length ≤ 1020 ∧
    writeReadTrip (Ringal.new 1024) (Nat.max 32 ([1, 2, 3] : List Nat).length)
      [1, 2, 3] = some (some [1, 2, 3]) :=
  ⟨by decide, C8_roundtrip_without_extension [1, 2, 3] (by decide)⟩

/-- C9. A shared buffer frozen with refcount 1 and then cloned `n` times:
after any `k ≤ n` of the `n + 1` handles are dropped the busy bit is still
set and `unset` has never run; dropping all `n + 1` clears busy and runs
`unset` exactly once.  (In this sequential embedding all handles are
interchangeable, so a drop order is exactly a drop count.) -/
theorem C9_busy_cleared_exactly_once_by_last_drop (n k : Nat) (hk : k ≤ n) :
    ((BufLife.dropN k (BufLife.cloneN n BufLife.frozen)).busy = true ∧
     (BufLife.dropN k (BufLife.cloneN n BufLife.frozen)).unsets = 0) ∧
    ((BufLife.dropN (n + 1) (BufLife.cloneN n BufLife.frozen)).busy = false ∧
     (BufLife.dropN (n + 1) (BufLife.cloneN n BufLife.frozen)).unsets = 1) := by
  have h1 := dropN_le n k hk
  have h3 : BufLife.dropN (n + 1) ⟨1 + n, true, 0⟩ = ⟨1, false, 1⟩ := by
    rw [BufLife.dropN, dropN_le n n le_rfl,
      show 1 + n - n = 1 from by omega]
    rfl
  rw [cloneN_frozen]
  exact ⟨⟨by rw [h1], by rw [h1]⟩, by rw [h3], by rw [h3]⟩

/-- C9 witness: eight clones, seven drops leave busy set; the eighth-plus-
original final drop clears it once. -/
theorem C9_witness :
    (7 : Nat) ≤ 8 ∧
    (((BufLife.dropN 7 (BufLife.cloneN 8 BufLife.frozen)).busy = true ∧
      (BufLife.dropN 7 (BufLife.cloneN 8 BufLife.frozen)).unsets = 0) ∧
     ((BufLife.dropN (8 + 1) (BufLife.cloneN 8 BufLife.frozen)).busy = false ∧
      (BufLife.dropN (8 + 1) (BufLife.cloneN 8 BufLife.frozen)).unsets = 1)) :=
  ⟨by decide, C9_busy_cleared_exactly_once_by_last_drop 8 7 (by decide)⟩

/-- C10. Immediately after `Ringal::new(capacity)`, every cell `i` of the
backing region is a well-formed free header: its busy bit is clear and its
capacity field is `min(MAXALLOC, cells - 1 - i)`, the distance (in cells)
from `i` to the last cell. -/
theorem C10_every_initial_cell_is_free_header (capacity : Nat)
    (hcap : U32SIZE + MINALLOCBYTES < capacity) :
    ∀ i, i < (Ringal.new capacity).cells →
      Header.available (Ringal.new capacity).mem i = true ∧
      Header.capacity (Ringal.new capacity).mem i =
        Nat.min MAXALLOC ((Ringal.new capacity).cells - 1 - i) := by
  intro i hi
  have hmem : (Ringal.new capacity).mem =
      initCells (nextPow2 capacity / U32SIZE) 0 (nextPow2 capacity / U32SIZE) := rfl
  have hcells : (Ringal.new capacity).cells = nextPow2 capacity / U32SIZE := rfl
  rw [hcells] at hi
  have hload := loadCell_initCells (nextPow2 capacity / U32SIZE)
    (nextPow2 capacity / U32SIZE) 0 i hi
  constructor
  · rw [Header.available, hmem, hload]
    simp [Nat.mul_mod_right]
  · rw [Header.capacity, hmem, hload, hcells]
    rw [show nextPow2 capacity / U32SIZE - (0 + i) - 1 =
      nextPow2 capacity / U32SIZE - 1 - i from by omega]
    omega

/-- C10 witness: the initial-header property at `capacity = 1024`, cell 3. -/
theorem C10_witness :
    U32SIZE + MINALLOCBYTES < 1024 ∧ (3 : Nat) < (Ringal.new 1024).cells ∧
    (Header.available (Ringal.new 1024).mem 3 = true ∧
     Header.capacity (Ringal.new 1024).mem 3 =
       Nat.min MAXALLOC ((Ringal.new 1024).cells - 1 - 3)) :=
  ⟨by decide, by decide,
    C10_every_initial_cell_is_free_header 1024 (by decide) 3 (by decide)⟩

end Ringo
